import Mathlib

/-!
Shallow embedding of the game core in `src/gamemanager.cpp`: a tick-based
authoritative simulation for a Bomberman-style multiplayer arena game.
The definitions below translate the `GameManager` member functions
(`gameTick`, `endRound`, `startRound`, `loadMap`, `explosionAt`,
`clientConnect`, `clientDisconnected`, `addPlayer`, `togglePause`) into pure
Lean functions over an explicit state record, and the theorems verify the
specified properties of the tick loop, the round lifecycle and the
connection lifecycle.
-/

namespace Bomber

/-- A participant's state, mirroring the `Player` fields that
`GameManager` reads and writes: stable integer id, grid position, alive
flag, win counter, pending command string, display name, and whether a
network channel is attached (`networkClient() != nullptr` in the source;
`false` models a locally-controlled player). -/
structure Player where
  id : Nat
  position : Int × Int
  alive : Bool
  wins : Nat
  command : String
  name : String
  networkClient : Bool
  deriving DecidableEq, Repr, Inhabited

/-- The external `Map` collaborator, at the interface `GameManager` uses:
a name (the load path), a validity flag (`Map::isValid`), the list of
starting positions (its length is the room capacity), the walkability
query `Map::isValidPosition`, and the positions of the active bombs
(`Map::bombs`; bomb owners are irrelevant to the game-manager logic
modelled here, only bomb positions are consulted). -/
structure GameMap where
  name : String
  isValid : Bool
  startingPositions : List (Int × Int)
  isValidPosition : Int × Int → Bool
  bombs : List (Int × Int)

/-- The `GameManager` state: current map, player roster (`m_players`, in
array order), whether the game-tick timer is running (`m_timer.isActive()`)
and the rounds-played counter (`m_roundsPlayed`). -/
structure GameManager where
  map : GameMap
  players : List Player
  timerActive : Bool
  roundsPlayed : Nat

/-- One `qSwap(players[i], players[j])` on a list: exchange the entries at
positions `i` and `j` (identity when either index is out of bounds, which
the shuffle loop in the source never produces). -/
def listSwap (l : List α) (i j : Nat) : List α :=
  match l.get? i, l.get? j with
  | some x, some y => (l.set i y).set j x
  | _, _ => l

/-- The shuffle at the top of `GameManager::gameTick`:
`for (int index = players.count() - 1; index > 0; --index)
   qSwap(players[index], players[qrand() % (index + 1)]);`
`rand index` supplies the `qrand()` draw made at loop index `index`. -/
def fisherYates (rand : Nat → Nat) (l : List α) : List α :=
  ((List.range' 1 (l.length - 1)).reverse).foldl
    (fun acc index => listSwap acc index (rand index % (index + 1))) l

/-- The directional-command decoding in `GameManager::gameTick`:
`UP` decrements y, `DOWN` increments y, `LEFT` decrements x, `RIGHT`
increments x; any other string is not a move. -/
def targetOf (command : String) (position : Int × Int) : Option (Int × Int) :=
  if command = "UP" then some (position.1, position.2 - 1)
  else if command = "DOWN" then some (position.1, position.2 + 1)
  else if command = "LEFT" then some (position.1 - 1, position.2)
  else if command = "RIGHT" then some (position.1 + 1, position.2)
  else none

/-- The body of the per-player loop in `GameManager::gameTick`, processing
the player at position `i` of the (shuffled) snapshot. In the source the
snapshot holds pointers into `m_players`, so committed moves are visible to
later iterations; here the roster list plays that shared role and the
shuffle is applied to the index order instead. An empty command is a no-op;
`BOMB` adds a bomb at the player's current position (`Map::addBomb`); a
directional command moves the player one cell unless the target is not
walkable, an alive player of the snapshot already occupies it, or a bomb
occupies it. -/
def processIndex (st : List Player × GameMap) (i : Nat) : List Player × GameMap :=
  match st.1.get? i with
  | none => st
  | some p =>
    if p.command = "" then st
    else if p.command = "BOMB" then
      (st.1, { st.2 with bombs := st.2.bombs ++ [p.position] })
    else
      match targetOf p.command p.position with
      | none => st
      | some target =>
        let canWalk := st.2.isValidPosition target
          && !(st.1.any fun q => q.alive && decide (q.position = target))
          && !(st.2.bombs.any fun b => decide (b = target))
        if canWalk then (st.1.set i { p with position := target }, st.2) else st

/-- The whole per-player loop of `GameManager::gameTick`, run over the
shuffled processing order. -/
def movementPhase (st : List Player × GameMap) (order : List Nat) : List Player × GameMap :=
  order.foldl processIndex st

/-- The death count taken at the end of `GameManager::gameTick`
(the loop counting `!players[i]->isAlive()`). -/
def deadCount (l : List Player) : Nat := l.countP fun p => !p.alive

/-- Number of players with `alive = true`. -/
def aliveCount (l : List Player) : Nat := l.countP fun p => p.alive

/-- The broadcast loop at the end of `GameManager::gameTick`: walking the
alive-player list, each network-attached entry `players[i]` is sent
`players` with `list.takeAt(i)` applied, i.e. the alive list minus its own
slot. `before` accumulates the already-walked front of the list. -/
def buildSnapshots (before : List Player) : List Player → List (Player × List Player)
  | [] => []
  | p :: rest =>
    if p.networkClient then
      (p, before ++ rest) :: buildSnapshots (before ++ [p]) rest
    else
      buildSnapshots (before ++ [p]) rest

/-- Result of one `GameManager::gameTick` call: the updated manager state,
whether `gameOver()` was emitted, and the `(recipient, contents)` pairs of
the `sendState` calls made. -/
structure TickResult where
  gm : GameManager
  gameOverEmitted : Bool
  snapshots : List (Player × List Player)

/-- `GameManager::gameTick`: shuffle the processing order, run the
per-player loop, count the dead; if at least one player is dead and fewer
than two are alive, emit `gameOver()` (and send nothing), otherwise send
each alive network-attached player the alive list minus itself. -/
def gameTick (gm : GameManager) (rand : Nat → Nat) : TickResult :=
  let order := fisherYates rand (List.range gm.players.length)
  let st := movementPhase (gm.players, gm.map) order
  let dead := deadCount st.1
  if 0 < dead ∧ st.1.length - dead < 2 then
    { gm := { gm with players := st.1, map := st.2 }, gameOverEmitted := true, snapshots := [] }
  else
    { gm := { gm with players := st.1, map := st.2 }, gameOverEmitted := false,
      snapshots := buildSnapshots [] (st.1.filter fun p => p.alive) }

/-- The intent-resolution order of a tick: the shuffled snapshot list
`players` of `GameManager::gameTick`, as a list of players. -/
def resolutionOrder (gm : GameManager) (rand : Nat → Nat) : List Player :=
  (fisherYates rand (List.range gm.players.length)).map fun i => gm.players.getD i default

/-- `GameManager::explosionAt`: every player standing on the exploded cell
is set to not alive. -/
def explosionAt (gm : GameManager) (position : Int × Int) : GameManager :=
  { gm with players := gm.players.map fun p =>
      if p.position = position then { p with alive := false } else p }

/-- The win-award loop in `GameManager::endRound`: walk the roster in id
(array) order and add one win to the first alive player found, if any. -/
def awardFirstAlive : List Player → List Player
  | [] => []
  | p :: rest =>
    if p.alive then { p with wins := p.wins + 1 } :: rest
    else p :: awardFirstAlive rest

/-- Result of `GameManager::endRound`: the updated state, whether a new
round was scheduled (`QTimer::singleShot(1000, this, SLOT(startRound()))`),
and whether the match-over end screen was shown. -/
structure EndRoundResult where
  gm : GameManager
  nextRoundScheduled : Bool
  matchOverShown : Bool

/-- `GameManager::endRound`: stop the timer; if fewer than 5 rounds have
been played, award a win to the first alive player, increment the round
counter and schedule the next round; otherwise show the end screen and
reset the round counter to 0. (The `sendEndOfRound` notifications change
no manager state and are not modelled.) -/
def endRound (gm : GameManager) : EndRoundResult :=
  let gm := { gm with timerActive := false }
  if gm.roundsPlayed < 5 then
    let gm2 := { gm with players := awardFirstAlive gm.players,
                         roundsPlayed := gm.roundsPlayed + 1 }
    { gm := gm2, nextRoundScheduled := true, matchOverShown := false }
  else
    { gm := { gm with roundsPlayed := 0 },
      nextRoundScheduled := false, matchOverShown := true }

/-- The id-renumbering loop run after a roster removal:
`for (int i=0; i<m_players.count(); i++) m_players[i]->setId(i);`. -/
def renumber (i : Nat) : List Player → List Player
  | [] => []
  | p :: rest => { p with id := i } :: renumber (i + 1) rest

/-- `GameManager::clientDisconnected`: if the timer is active, return
without touching anything (the event is dropped); otherwise locate the
sender in the roster (warn and return if absent — modelled by the
bounds test, since `List.indexOf` returns the length when the element is
missing), remove it and renumber the remaining ids densely. -/
def clientDisconnected (gm : GameManager) (player : Player) : GameManager :=
  if gm.timerActive then gm
  else
    let index := gm.players.indexOf player
    if index < gm.players.length then
      { gm with players := renumber 0 (gm.players.eraseIdx index) }
    else gm

/-- The eviction loop of `GameManager::loadMap`, expressed on the reversed
roster (the source walks `i` from `count-1` down to `0`): `kept` counts the
already-retained entries above the current one; stop as soon as the total
count fits the capacity `cap`; skip (retain) players without a network
client; evict everyone else. -/
def kickLoop (cap : Nat) (kept : Nat) : List Player → List Player
  | [] => []
  | p :: rest =>
    if rest.length + 1 + kept ≤ cap then p :: rest
    else if p.networkClient then kickLoop cap kept rest
    else p :: kickLoop cap (kept + 1) rest

/-- The "kick out players if too many" phase of `GameManager::loadMap`,
on the roster in its own order. -/
def kickExcess (cap : Nat) (l : List Player) : List Player :=
  (kickLoop cap 0 l.reverse).reverse

/-- The "update positions and id" loop of `GameManager::loadMap`:
`m_players[i]->setPosition(m_map->startingPositions()[i]);
 m_players[i]->setId(i);`. (An index beyond the starting-position list
would be out of bounds in the source; `getD` supplies a junk cell there,
and no theorem relies on that case.) -/
def reindexPlayers (m : GameMap) (i : Nat) : List Player → List Player
  | [] => []
  | p :: rest =>
    { p with position := m.startingPositions.getD i ((0 : Int), (0 : Int)), id := i }
      :: reindexPlayers m (i + 1) rest

/-- `GameManager::loadMap`: reject an invalid map (no state change);
otherwise install the map, evict excess network players from the top end
of the roster until it fits the new capacity, and reposition/renumber
every remaining player. -/
def loadMap (gm : GameManager) (m : GameMap) : GameManager :=
  if m.isValid then
    let ps := kickExcess m.startingPositions.length gm.players
    { gm with map := m, players := reindexPlayers m 0 ps }
  else gm

/-- The reset loop at the top of `GameManager::startRound`:
`m_players[i]->setAlive(true);
 m_players[i]->setPosition(m_map->startingPositions()[i]);` (using the
map installed before the reload). -/
def resetLoop (m : GameMap) (i : Nat) : List Player → List Player
  | [] => []
  | p :: rest =>
    { p with alive := true, position := m.startingPositions.getD i ((0 : Int), (0 : Int)) }
      :: resetLoop m (i + 1) rest

/-- The name-change lockout loop at the bottom of `GameManager::startRound`:
`m_players[i]->networkClient()->disconnect(SIGNAL(nameChanged(QString)));`
dereferences the channel of every player with no null check, so reaching a
player without a network client is a null-pointer dereference; that crash
is the `Except.error` case. -/
def lockoutNames : List Player → Except Unit Unit
  | [] => .ok ()
  | p :: rest => if p.networkClient then lockoutNames rest else .error ()

/-- `GameManager::startRound`: return at once on an empty roster; reset
every player to alive at its starting position; reload the current map
(`loadMap(m_map->name())` re-parses the same file, so the same map value
with transient bomb state cleared); run the name-change lockout loop
(which crashes on a locally-controlled player); start the timer. -/
def startRound (gm : GameManager) : Except Unit GameManager :=
  if gm.players.isEmpty then .ok gm
  else
    let ps := resetLoop gm.map 0 gm.players
    let gm1 := loadMap { gm with players := ps } { gm.map with bombs := [] }
    match lockoutNames gm1.players with
    | .error e => .error e
    | .ok _ => .ok { gm1 with timerActive := true }

/-- `GameManager::addPlayer`: refuse silently when the roster is at the
map's starting-position capacity; otherwise append a player whose id is
the current roster size, positioned at the starting position of that id,
named from the remote (or `"Local user"` when no channel is attached). -/
def addPlayer (gm : GameManager) (networkClient : Bool) (remoteName : String) : GameManager :=
  if gm.map.startingPositions.length ≤ gm.players.length then gm
  else
    let player : Player :=
      { id := gm.players.length,
        position := gm.map.startingPositions.getD gm.players.length ((0 : Int), (0 : Int)),
        alive := true, wins := 0, command := "",
        name := if networkClient then remoteName else "Local user",
        networkClient := networkClient }
    { gm with players := gm.players ++ [player] }

/-- `GameManager::clientConnect`: if the roster is at capacity or the tick
timer is active, close the socket at once (no state change, `false`);
otherwise add a network-attached player (`true`). -/
def clientConnect (gm : GameManager) (remoteName : String) : GameManager × Bool :=
  if gm.map.startingPositions.length ≤ gm.players.length ∨ gm.timerActive then (gm, false)
  else (addPlayer gm true remoteName, true)

/-- `GameManager::togglePause`: stop the timer if running, start it
otherwise. -/
def togglePause (gm : GameManager) : GameManager :=
  { gm with timerActive := !gm.timerActive }

/-- One executed tick of a round, for the round-trace model: the roster
before the explosions of the inter-tick window, the roster after the tick,
and whether the tick emitted `gameOver()`. -/
structure TickRecord where
  preRoster : List Player
  postRoster : List Player
  emitted : Bool
  deriving DecidableEq, Repr, Inhabited

/-- A round as driven by the timer wiring of the source: each entry of the
schedule is the list of explosion events delivered before the next tick
(`Map` fires `explosionAt` asynchronously between ticks) together with the
`qrand()` draws of that tick. `gameOver()` is connected to `endRound()`,
which stops the timer, so the run stops at the first tick that emits it. -/
def roundRun (gm : GameManager) : List (List (Int × Int) × (Nat → Nat)) → List TickRecord
  | [] => []
  | w :: rest =>
    let gmExploded := w.1.foldl explosionAt gm
    let res := gameTick gmExploded w.2
    { preRoster := gm.players, postRoster := res.gm.players,
      emitted := res.gameOverEmitted } ::
      if res.gameOverEmitted then [] else roundRun res.gm rest

/-! ### Concrete fixtures for witnesses and counterexamples -/

/-- A small valid 7×7 open map with three starting positions, standing in
for the parsed `:/maps/default.map`. -/
def demoMap : GameMap :=
  { name := "default", isValid := true,
    startingPositions := [((1 : Int), (1 : Int)), ((3 : Int), (3 : Int)), ((5 : Int), (5 : Int))],
    isValidPosition := fun p => decide (0 ≤ p.1 ∧ p.1 ≤ 6 ∧ 0 ≤ p.2 ∧ p.2 ≤ 6),
    bombs := [] }

/-- Helper to build concrete players. -/
def demoPlayer (i : Nat) (pos : Int × Int) (al net : Bool) (cmd : String) : Player :=
  { id := i, position := pos, alive := al, wins := 0, command := cmd,
    name := "p", networkClient := net }

/-! ### Round resolution: `endRound` (claims C3 and C8) -/

/-- When nobody in the roster is alive, the win-award loop changes
nothing. -/
theorem awardFirstAlive_of_none_alive (l : List Player)
    (h : ∀ p ∈ l, p.alive = false) : awardFirstAlive l = l := by
  induction l with
  | nil => rfl
  | cons p rest ih =>
    have hp := h p (List.mem_cons_self ..)
    simp only [awardFirstAlive, hp, Bool.false_eq_true, if_false]
    rw [ih fun q hq => h q (List.mem_cons_of_mem _ hq)]

/-- The win-award loop adds one win at the first alive position and leaves
every other entry untouched. -/
theorem awardFirstAlive_get? (l : List Player) (i : Nat) (p : Player)
    (hi : l.get? i = some p) (hp : p.alive = true)
    (hmin : ∀ j q, j < i → l.get? j = some q → q.alive = false) :
    (awardFirstAlive l).get? i = some { p with wins := p.wins + 1 } ∧
    ∀ j, j ≠ i → (awardFirstAlive l).get? j = l.get? j := by
  induction l generalizing i with
  | nil => simp at hi
  | cons q rest ih =>
    cases i with
    | zero =>
      simp only [List.get?_cons_zero, Option.some.injEq] at hi
      subst hi
      refine ⟨by simp [awardFirstAlive, hp], ?_⟩
      intro j hj
      cases j with
      | zero => exact absurd rfl hj
      | succ j => simp [awardFirstAlive, hp]
    | succ i' =>
      have hq : q.alive = false :=
        hmin 0 q (Nat.succ_pos _) (List.get?_cons_zero)
      simp only [List.get?_cons_succ] at hi
      have ih' := ih i' hi
        (fun j r hj hr => hmin (j + 1) r (Nat.succ_lt_succ hj) (by simpa using hr))
      refine ⟨?_, ?_⟩
      · simpa [awardFirstAlive, hq] using ih'.1
      · intro j hj
        cases j with
        | zero => simp [awardFirstAlive, hq]
        | succ j =>
          have : j ≠ i' := fun h => hj (by rw [h])
          simpa [awardFirstAlive, hq] using ih'.2 j this

/-- `endRound` increments `roundsPlayed` while it is below 5. -/
theorem endRound_roundsPlayed_of_lt (gm : GameManager) (h : gm.roundsPlayed < 5) :
    (endRound gm).gm.roundsPlayed = gm.roundsPlayed + 1 := by
  simp [endRound, h]

/-- Iterating round resolutions adds to the round counter one by one. -/
theorem endRound_iterate_roundsPlayed (k : Nat) (gm : GameManager)
    (h : gm.roundsPlayed + k ≤ 5) :
    ((fun s => (endRound s).gm)^[k] gm).roundsPlayed = gm.roundsPlayed + k := by
  induction k generalizing gm with
  | zero => simp
  | succ k ih =>
    rw [Function.iterate_succ_apply]
    have hlt : gm.roundsPlayed < 5 := by omega
    have h1 : (endRound gm).gm.roundsPlayed = gm.roundsPlayed + 1 :=
      endRound_roundsPlayed_of_lt gm hlt
    rw [ih _ (by omega), h1]
    omega

/-- C3 (counterexample): driving `endRound` from a fresh match
(`roundsPlayed = 0`) through four resolutions and then resolving the fifth
round schedules a further (sixth) round and does not show the match-over
screen, contrary to the claim that after the 5th round resolution the
match is over and no 6th round is played. -/
theorem c3_counterexample :
    (endRound ((fun s => (endRound s).gm)^[4]
        { map := demoMap,
          players := [demoPlayer 0 (1, 1) true true "", demoPlayer 1 (3, 3) false true ""],
          timerActive := true, roundsPlayed := 0 })).nextRoundScheduled = true ∧
    (endRound ((fun s => (endRound s).gm)^[4]
        { map := demoMap,
          players := [demoPlayer 0 (1, 1) true true "", demoPlayer 1 (3, 3) false true ""],
          timerActive := true, roundsPlayed := 0 })).matchOverShown = false := by
  constructor <;> rfl

/-- C3 (amended): a round resolution with fewer than 5 rounds played
increments the counter and schedules another round; the resolution with
counter 5 — the sixth — shows the match-over tallies, resets the counter
to 0, changes no win counter and schedules nothing. Hence a match started
at counter 0 runs 6 rounds: its first five resolutions each schedule a
further round and only the sixth shows match over. -/
theorem c3_match_runs_six_rounds (gm : GameManager) :
    (gm.roundsPlayed < 5 →
      (endRound gm).nextRoundScheduled = true ∧
      (endRound gm).matchOverShown = false ∧
      (endRound gm).gm.roundsPlayed = gm.roundsPlayed + 1) ∧
    (¬ gm.roundsPlayed < 5 →
      (endRound gm).nextRoundScheduled = false ∧
      (endRound gm).matchOverShown = true ∧
      (endRound gm).gm.roundsPlayed = 0 ∧
      (endRound gm).gm.players = gm.players) ∧
    (gm.roundsPlayed = 0 →
      (∀ k, k < 5 →
        (endRound ((fun s => (endRound s).gm)^[k] gm)).nextRoundScheduled = true) ∧
      (endRound ((fun s => (endRound s).gm)^[5] gm)).matchOverShown = true ∧
      (endRound ((fun s => (endRound s).gm)^[5] gm)).gm.roundsPlayed = 0) := by
  have hsched : ∀ s : GameManager, s.roundsPlayed < 5 →
      (endRound s).nextRoundScheduled = true := fun s hs => by simp [endRound, hs]
  have hover : ∀ s : GameManager, ¬ s.roundsPlayed < 5 →
      (endRound s).matchOverShown = true := fun s hs => by simp [endRound, hs]
  have hzero : ∀ s : GameManager, ¬ s.roundsPlayed < 5 →
      (endRound s).gm.roundsPlayed = 0 := fun s hs => by simp [endRound, hs]
  refine ⟨fun h => ?_, fun h => ?_, fun h0 => ?_⟩
  · simp [endRound, h]
  · simp [endRound, h]
  · have hrp : ∀ k, k ≤ 5 →
        ((fun s => (endRound s).gm)^[k] gm).roundsPlayed = k := by
      intro k hk
      have := endRound_iterate_roundsPlayed k gm (by omega)
      omega
    refine ⟨fun k hk => ?_, ?_, ?_⟩
    · have := hrp k (by omega)
      exact hsched _ (by omega)
    · have := hrp 5 (by omega)
      exact hover _ (by omega)
    · have := hrp 5 (by omega)
      exact hzero _ (by omega)

/-- Witness for `c3_match_runs_six_rounds` at concrete states exercising
both branches and the fresh-match trace. -/
theorem c3_match_runs_six_rounds_witness :
    (endRound { map := demoMap, players := [], timerActive := false, roundsPlayed := 3
      }).nextRoundScheduled = true ∧
    (endRound { map := demoMap, players := [], timerActive := false, roundsPlayed := 5
      }).matchOverShown = true ∧
    (endRound ((fun s => (endRound s).gm)^[5]
      { map := demoMap, players := [], timerActive := false, roundsPlayed := 0
      })).matchOverShown = true := by
  refine ⟨?_, ?_, ?_⟩
  · exact ((c3_match_runs_six_rounds _).1 (by decide)).1
  · exact (((c3_match_runs_six_rounds _).2.1 (by decide)).2).1
  · exact (((c3_match_runs_six_rounds
      { map := demoMap, players := [], timerActive := false, roundsPlayed := 0
      }).2.2 rfl).2).1

/-- A two-player roster (first alive, second dead) at the match-ending
resolution point, round counter 5. -/
def gmSixthResolution : GameManager :=
  { map := demoMap,
    players := [demoPlayer 0 (1, 1) true true "", demoPlayer 1 (3, 3) false true ""],
    timerActive := true, roundsPlayed := 5 }

/-- C8 (counterexample): at the match-ending resolution (round counter 5,
the sixth resolution) a player is alive and yet no win counter changes,
contrary to the claim that every round resolution awards one win to the
first alive player. -/
theorem c8_counterexample :
    gmSixthResolution.players.get? 0 = some (demoPlayer 0 (1, 1) true true "") ∧
    (demoPlayer 0 (1, 1) true true "").alive = true ∧
    (endRound gmSixthResolution).gm.players = gmSixthResolution.players := by
  refine ⟨rfl, rfl, rfl⟩

/-- C8 (amended): at a round resolution with fewer than 5 rounds played,
exactly one win is added to the first alive player in roster (id) order —
every other roster entry is untouched — and nothing changes when no player
is alive; at the match-ending resolution (counter 5) no win counter
changes even if players are alive. -/
theorem c8_win_award (gm : GameManager) :
    (gm.roundsPlayed < 5 →
      ((∀ p ∈ gm.players, p.alive = false) → (endRound gm).gm.players = gm.players) ∧
      (∀ i p, gm.players.get? i = some p → p.alive = true →
        (∀ j q, j < i → gm.players.get? j = some q → q.alive = false) →
        (endRound gm).gm.players.get? i = some { p with wins := p.wins + 1 } ∧
        ∀ j, j ≠ i → (endRound gm).gm.players.get? j = gm.players.get? j)) ∧
    (¬ gm.roundsPlayed < 5 → (endRound gm).gm.players = gm.players) := by
  refine ⟨fun h => ⟨fun hall => ?_, fun i p hi hp hmin => ?_⟩, fun h => ?_⟩
  · simp [endRound, h, awardFirstAlive_of_none_alive _ hall]
  · have := awardFirstAlive_get? gm.players i p hi hp hmin
    simpa [endRound, h] using this
  · simp [endRound, h]

/-- A two-player roster (first dead, second alive) at round counter 2. -/
def gmMidMatch : GameManager :=
  { map := demoMap,
    players := [demoPlayer 0 (1, 1) false true "", demoPlayer 1 (3, 3) true true ""],
    timerActive := true, roundsPlayed := 2 }

/-- Witness for `c8_win_award`: a two-player roster where the first player
is dead and the second alive, at round counter 2 — the second player gets
the win and the first is untouched — and the same roster at counter 5,
where nothing changes. -/
theorem c8_win_award_witness :
    (endRound gmMidMatch).gm.players.get? 1 =
      some { demoPlayer 1 (3, 3) true true "" with wins := 1 } ∧
    (endRound gmMidMatch).gm.players.get? 0 =
      some (demoPlayer 0 (1, 1) false true "") ∧
    (endRound { gmMidMatch with roundsPlayed := 5 }).gm.players = gmMidMatch.players := by
  have h := c8_win_award gmMidMatch
  have h5 := c8_win_award { gmMidMatch with roundsPlayed := 5 }
  have hfirst := (h.1 (by decide)).2 1 (demoPlayer 1 (3, 3) true true "")
    (by decide) (by decide)
    (by
      intro j q hj hq
      have hj0 : j = 0 := by omega
      subst hj0
      have hq' : some (demoPlayer 0 (1, 1) false true "") = some q := by rw [← hq]; rfl
      injection hq' with h2
      rw [← h2]
      rfl)
  refine ⟨hfirst.1, hfirst.2 0 (by decide), h5.2 (by decide)⟩

/-! ### Connection lifecycle: `clientConnect` (claim C7) and
`clientDisconnected` (claim C2) -/

/-- A one-network-player lobby with free capacity and the timer stopped. -/
def gmLobby : GameManager :=
  { map := demoMap, players := [demoPlayer 0 (1, 1) true true ""],
    timerActive := false, roundsPlayed := 0 }

/-- The lobby after a round has been started. -/
def gmLobbyRunning : GameManager := (startRound gmLobby).toOption.getD gmLobby

/-- The running round after a pause toggle: the round is mid-play (it was
started and never resolved) but the tick timer is stopped. -/
def gmLobbyPaused : GameManager := togglePause gmLobbyRunning

/-- C7 (counterexample): start a round in a lobby with free capacity, then
pause it. The round is active but merely paused, yet an inbound connection
is accepted and a roster entry is created — contrary to the claim that a
connection arriving during an active-but-paused round is rejected. -/
theorem c7_counterexample :
    (startRound gmLobby).isOk = true ∧
    gmLobbyRunning.timerActive = true ∧
    gmLobbyPaused.timerActive = false ∧
    gmLobbyPaused.roundsPlayed = 0 ∧
    (clientConnect gmLobbyPaused "remote").2 = true ∧
    (clientConnect gmLobbyPaused "remote").1.players.length =
      gmLobbyPaused.players.length + 1 := by
  refine ⟨rfl, rfl, rfl, rfl, rfl, rfl⟩

/-- C7 (amended): an inbound connection is rejected — socket closed, no
roster entry or player state created — exactly when the roster already
holds as many players as the map has starting positions or the tick timer
is currently running; since pausing stops the timer, a connection arriving
while an active round is paused is accepted. On acceptance a new
network-attached player is appended with the next sequential id and the
starting position of that id. -/
theorem c7_connection_gate (gm : GameManager) (remoteName : String) :
    ((gm.map.startingPositions.length ≤ gm.players.length ∨ gm.timerActive = true) →
      clientConnect gm remoteName = (gm, false)) ∧
    (gm.players.length < gm.map.startingPositions.length → gm.timerActive = false →
      (clientConnect gm remoteName).2 = true ∧
      (clientConnect gm remoteName).1 = { gm with players := gm.players ++
        [{ id := gm.players.length,
           position := gm.map.startingPositions.getD gm.players.length ((0 : Int), (0 : Int)),
           alive := true, wins := 0, command := "", name := remoteName,
           networkClient := true }] }) := by
  constructor
  · intro h
    simp only [clientConnect]
    rw [if_pos]
    rcases h with h | h
    · exact Or.inl h
    · exact Or.inr h
  · intro hcap htimer
    have hnot : ¬ (gm.map.startingPositions.length ≤ gm.players.length ∨ gm.timerActive) := by
      rintro (h | h)
      · omega
      · rw [htimer] at h
        cases h
    have hcap' : ¬ gm.map.startingPositions.length ≤ gm.players.length := by omega
    refine ⟨?_, ?_⟩
    · simp [clientConnect, hnot, htimer, hcap']
    · simp [clientConnect, hnot, htimer, addPlayer, hcap']

/-- Witness for `c7_connection_gate`: a full three-player roster rejects,
and the one-player lobby accepts and appends the new id-1 player. -/
theorem c7_connection_gate_witness :
    clientConnect { gmLobby with players :=
        [demoPlayer 0 (1, 1) true true "", demoPlayer 1 (3, 3) true true "",
         demoPlayer 2 (5, 5) true true ""] } "x" =
      ({ gmLobby with players :=
        [demoPlayer 0 (1, 1) true true "", demoPlayer 1 (3, 3) true true "",
         demoPlayer 2 (5, 5) true true ""] }, false) ∧
    (clientConnect gmLobby "x").2 = true := by
  constructor
  · exact (c7_connection_gate _ "x").1 (Or.inl (by decide))
  · exact ((c7_connection_gate gmLobby "x").2 (by decide) rfl).1

/-- The renumbering loop id-stamps each entry with its position (offset by
the starting index) and changes nothing else. -/
theorem renumber_get? (l : List Player) (k i : Nat) :
    (renumber k l).get? i = (l.get? i).map fun q => { q with id := k + i } := by
  induction l generalizing k i with
  | nil => simp [renumber]
  | cons p rest ih =>
    cases i with
    | zero => simp [renumber]
    | succ i =>
      simp only [renumber, List.get?_cons_succ]
      rw [ih]
      have harith : k + 1 + i = k + (i + 1) := by omega
      rw [harith]

/-- C2 (amended): a disconnect event arriving while the round timer is
active is dropped entirely — the roster, every id and all other state stay
exactly as they were, and no removal is performed then or later (the
handler returns before recording anything, so the player stays in the
roster indefinitely). A disconnect arriving while the timer is inactive
removes the player immediately and renumbers the remaining players' ids
densely as 0..N-1 matching array order. -/
theorem c2_disconnect (gm : GameManager) (p : Player) :
    (gm.timerActive = true → clientDisconnected gm p = gm) ∧
    (gm.timerActive = false → p ∈ gm.players →
      (clientDisconnected gm p).players.length = gm.players.length - 1 ∧
      ∀ i, (clientDisconnected gm p).players.get? i =
        ((gm.players.eraseIdx (gm.players.indexOf p)).get? i).map
          fun q => { q with id := i }) := by
  constructor
  · intro h
    simp [clientDisconnected, h]
  · intro htimer hmem
    have hidx : gm.players.indexOf p < gm.players.length :=
      List.indexOf_lt_length.mpr hmem
    have hif : clientDisconnected gm p =
        { gm with players := renumber 0 (gm.players.eraseIdx (gm.players.indexOf p)) } := by
      simp [clientDisconnected, htimer, hidx]
    refine ⟨?_, ?_⟩
    · rw [hif]
      have hlen : ∀ (l : List Player) (k : Nat), (renumber k l).length = l.length := by
        intro l
        induction l with
        | nil => intro k; rfl
        | cons q rest ih => intro k; simp [renumber, ih]
      simp only [hlen]
      exact List.length_eraseIdx_of_lt hidx
    · intro i
      rw [hif]
      have := renumber_get? (gm.players.eraseIdx (gm.players.indexOf p)) 0 i
      simpa using this

/-- A two-network-player roster with the timer stopped. -/
def gmPair : GameManager :=
  { map := demoMap,
    players := [demoPlayer 0 (1, 1) true true "", demoPlayer 1 (3, 3) true true ""],
    timerActive := false, roundsPlayed := 0 }

/-- The pair roster with a running round. -/
def gmPairRunning : GameManager := (startRound gmPair).toOption.getD gmPair

/-- The second player of the running pair round. -/
def pairSecond : Player := gmPairRunning.players.getD 1 default

/-- C2 (counterexample): a player disconnects while the round is active —
the event changes nothing (that much the claim gets right) — but when the
round then ends, the player is still in the roster: the removal was not
deferred, it never happens, contrary to the claim that once the round is
no longer active the player is removed. -/
theorem c2_counterexample :
    (startRound gmPair).isOk = true ∧
    gmPairRunning.timerActive = true ∧
    clientDisconnected gmPairRunning pairSecond = gmPairRunning ∧
    (endRound (clientDisconnected gmPairRunning pairSecond)).gm.timerActive = false ∧
    pairSecond ∈ (endRound (clientDisconnected gmPairRunning pairSecond)).gm.players := by
  refine ⟨rfl, rfl, rfl, rfl, by decide⟩

/-- Witness for `c2_disconnect`: dropping the event mid-round on the
running pair roster, and an immediate removal with dense renumbering on
the stopped pair roster. -/
theorem c2_disconnect_witness :
    clientDisconnected gmPairRunning pairSecond = gmPairRunning ∧
    (clientDisconnected gmPair (demoPlayer 1 (3, 3) true true "")).players.length = 1 ∧
    (clientDisconnected gmPair (demoPlayer 1 (3, 3) true true "")).players.get? 0 =
      ((gmPair.players.eraseIdx
          (gmPair.players.indexOf (demoPlayer 1 (3, 3) true true ""))).get? 0).map
        (fun q => { q with id := 0 }) := by
  refine ⟨(c2_disconnect gmPairRunning pairSecond).1 rfl, ?_, ?_⟩
  · exact ((c2_disconnect gmPair _).2 rfl (by decide)).1
  · exact ((c2_disconnect gmPair _).2 rfl (by decide)).2 0

/-! ### Map loading and round start: `loadMap` (claim C9) and
`startRound` (claim C10) -/

/-- The reset loop changes positions and alive flags only, never the
channel attachment. -/
theorem resetLoop_networkClient (m : GameMap) (i : Nat) (l : List Player) :
    (resetLoop m i l).map (fun p => p.networkClient) = l.map fun p => p.networkClient := by
  induction l generalizing i with
  | nil => rfl
  | cons p rest ih => simp [resetLoop, ih]

/-- The reposition/renumber loop never changes the channel attachment. -/
theorem reindexPlayers_networkClient (m : GameMap) (i : Nat) (l : List Player) :
    (reindexPlayers m i l).map (fun p => p.networkClient) = l.map fun p => p.networkClient := by
  induction l generalizing i with
  | nil => rfl
  | cons p rest ih => simp [reindexPlayers, ih]

/-- The eviction loop retains exactly the locally-controlled players of
its input (in order): eviction touches only network-attached entries. -/
theorem kickLoop_filter_local (cap kept : Nat) (l : List Player) :
    (kickLoop cap kept l).filter (fun p => !p.networkClient) =
      l.filter fun p => !p.networkClient := by
  induction l generalizing kept with
  | nil => rfl
  | cons p rest ih =>
    by_cases hbreak : rest.length + 1 + kept ≤ cap
    · simp [kickLoop, hbreak]
    · by_cases hnet : p.networkClient
      · simp [kickLoop, hbreak, hnet, ih]
      · simp [kickLoop, hbreak, hnet, ih]

/-- `kickExcess` retains exactly the locally-controlled players, in
order. -/
theorem kickExcess_filter_local (cap : Nat) (l : List Player) :
    (kickExcess cap l).filter (fun p => !p.networkClient) =
      l.filter fun p => !p.networkClient := by
  unfold kickExcess
  rw [List.filter_reverse, kickLoop_filter_local, List.filter_reverse,
    List.reverse_reverse]

/-- The eviction loop yields a sublist: order is preserved and nothing is
added. -/
theorem kickLoop_sublist (cap kept : Nat) (l : List Player) :
    (kickLoop cap kept l).Sublist l := by
  induction l generalizing kept with
  | nil => exact List.Sublist.refl _
  | cons p rest ih =>
    by_cases hbreak : rest.length + 1 + kept ≤ cap
    · simp [kickLoop, hbreak]
    · by_cases hnet : p.networkClient
      · simpa [kickLoop, hbreak, hnet] using List.Sublist.cons p (ih kept)
      · simpa [kickLoop, hbreak, hnet] using List.Sublist.cons₂ p (ih (kept + 1))

/-- `kickExcess` yields a sublist of the roster. -/
theorem kickExcess_sublist (cap : Nat) (l : List Player) :
    (kickExcess cap l).Sublist l := by
  unfold kickExcess
  have := (kickLoop_sublist cap 0 l.reverse).reverse
  rwa [List.reverse_reverse] at this

/-- On the reversed roster the network players surviving the eviction loop
are a suffix of the reversed network players: eviction removes network
players strictly from the front of the reversed order, i.e. from the top
of the roster. -/
theorem kickLoop_filter_net_drop (cap kept : Nat) (l : List Player) :
    ∃ k, (kickLoop cap kept l).filter (fun p => p.networkClient) =
      (l.filter fun p => p.networkClient).drop k := by
  induction l generalizing kept with
  | nil => exact ⟨0, rfl⟩
  | cons p rest ih =>
    by_cases hbreak : rest.length + 1 + kept ≤ cap
    · exact ⟨0, by simp [kickLoop, hbreak]⟩
    · by_cases hnet : p.networkClient
      · obtain ⟨k, hk⟩ := ih kept
        refine ⟨k + 1, ?_⟩
        simp [kickLoop, hbreak, hnet, hk]
      · obtain ⟨k, hk⟩ := ih (kept + 1)
        refine ⟨k, ?_⟩
        simp [kickLoop, hbreak, hnet, hk]

/-- The network players surviving `kickExcess` are an initial segment (in
roster order) of the original network players: eviction takes network
players strictly from the highest index downward. -/
theorem kickExcess_filter_net (cap : Nat) (l : List Player) :
    ∃ evicted, l.filter (fun p => p.networkClient) =
      (kickExcess cap l).filter (fun p => p.networkClient) ++ evicted := by
  obtain ⟨k, hk⟩ := kickLoop_filter_net_drop cap 0 l.reverse
  refine ⟨((l.filter fun p => p.networkClient).reverse.take k).reverse, ?_⟩
  have hsplit : (l.filter fun p => p.networkClient).reverse =
      ((l.filter fun p => p.networkClient).reverse.take k) ++
      ((l.filter fun p => p.networkClient).reverse.drop k) :=
    (List.take_append_drop _ _).symm
  have hk' : (kickLoop cap 0 l.reverse).filter (fun p => p.networkClient) =
      (l.filter fun p => p.networkClient).reverse.drop k := by
    rw [hk, List.filter_reverse]
  calc l.filter (fun p => p.networkClient)
      = (l.filter fun p => p.networkClient).reverse.reverse := by
        rw [List.reverse_reverse]
    _ = (((l.filter fun p => p.networkClient).reverse.take k) ++
          ((l.filter fun p => p.networkClient).reverse.drop k)).reverse := by
        rw [← hsplit]
    _ = ((l.filter fun p => p.networkClient).reverse.drop k).reverse ++
          ((l.filter fun p => p.networkClient).reverse.take k).reverse := by
        rw [List.reverse_append]
    _ = (kickExcess cap l).filter (fun p => p.networkClient) ++
          ((l.filter fun p => p.networkClient).reverse.take k).reverse := by
        rw [← hk', kickExcess, List.filter_reverse]

/-- Length of the eviction loop's output: everything is kept while the
total fits, otherwise network players are shed down to capacity but never
below the number of locally-controlled players. -/
theorem kickLoop_length (cap kept : Nat) (l : List Player) :
    (kickLoop cap kept l).length =
      max (min (cap - kept) l.length) (l.countP fun p => !p.networkClient) := by
  induction l generalizing kept with
  | nil => simp [kickLoop]
  | cons p rest ih =>
    have hcount : (rest.countP fun q => !q.networkClient) ≤ rest.length :=
      List.countP_le_length _
    have hlc : (p :: rest).length = rest.length + 1 := rfl
    by_cases hbreak : rest.length + 1 + kept ≤ cap
    · have hcount' : ((p :: rest).countP fun q => !q.networkClient) ≤ (p :: rest).length :=
        List.countP_le_length _
      simp only [kickLoop, hbreak, if_true]
      omega
    · by_cases hnet : p.networkClient
      · have hc : ((p :: rest).countP fun q => !q.networkClient) =
            rest.countP fun q => !q.networkClient := by
          simp [List.countP_cons, hnet]
        simp only [kickLoop, hbreak, if_false, hnet, if_true, hc, ih]
        omega
      · have hnet' : p.networkClient = false := by
          simpa using hnet
        have hc : ((p :: rest).countP fun q => !q.networkClient) =
            (rest.countP fun q => !q.networkClient) + 1 := by
          simp [List.countP_cons, hnet']
        simp only [kickLoop, hbreak, if_false, hnet', Bool.false_eq_true, List.length_cons,
          hc, ih]
        omega

/-- Length of `kickExcess`. -/
theorem kickExcess_length (cap : Nat) (l : List Player) :
    (kickExcess cap l).length =
      max (min cap l.length) (l.countP fun p => !p.networkClient) := by
  unfold kickExcess
  rw [List.length_reverse, kickLoop_length]
  simp

/-- The reposition/renumber loop of `loadMap`, entrywise. -/
theorem reindexPlayers_get? (m : GameMap) (l : List Player) (k i : Nat) :
    (reindexPlayers m k l).get? i = (l.get? i).map fun q =>
      { q with id := k + i,
               position := m.startingPositions.getD (k + i) ((0 : Int), (0 : Int)) } := by
  induction l generalizing k i with
  | nil => simp [reindexPlayers]
  | cons p rest ih =>
    cases i with
    | zero => simp [reindexPlayers]
    | succ i =>
      simp only [reindexPlayers, List.get?_cons_succ]
      rw [ih]
      have harith : k + 1 + i = k + (i + 1) := by omega
      rw [harith]

/-- C9: loading a valid map evicts only network-attached players — every
locally-controlled player survives, in order — strictly from the highest
roster index downward (the surviving network players are an initial
segment of the original ones), shedding players only while the roster
exceeds the new map's starting-position count (and never below the number
of local players); afterwards every remaining player is repositioned to
the new map's starting slot of its index and ids are reassigned densely as
0..N-1 in array order. -/
theorem c9_loadMap_eviction (gm : GameManager) (m : GameMap) (hv : m.isValid = true) :
    (kickExcess m.startingPositions.length gm.players).Sublist gm.players ∧
    (kickExcess m.startingPositions.length gm.players).filter (fun p => !p.networkClient) =
      gm.players.filter (fun p => !p.networkClient) ∧
    (∃ evicted, gm.players.filter (fun p => p.networkClient) =
      (kickExcess m.startingPositions.length gm.players).filter
        (fun p => p.networkClient) ++ evicted) ∧
    (kickExcess m.startingPositions.length gm.players).length =
      max (min m.startingPositions.length gm.players.length)
        (gm.players.countP fun p => !p.networkClient) ∧
    (∀ i, (loadMap gm m).players.get? i =
      ((kickExcess m.startingPositions.length gm.players).get? i).map fun q =>
        { q with id := i,
                 position := m.startingPositions.getD i ((0 : Int), (0 : Int)) }) ∧
    (loadMap gm m).map = m := by
  refine ⟨kickExcess_sublist _ _, kickExcess_filter_local _ _,
    kickExcess_filter_net _ _, kickExcess_length _ _, fun i => ?_, ?_⟩
  · simp only [loadMap, hv, if_true]
    simpa using reindexPlayers_get? m (kickExcess m.startingPositions.length gm.players) 0 i
  · simp [loadMap, hv]

/-- A roster of three players — network, local, network — for exercising
the eviction path. -/
def gmTrio : GameManager :=
  { map := demoMap,
    players := [demoPlayer 0 (1, 1) true true "", demoPlayer 1 (3, 3) true false "",
                demoPlayer 2 (5, 5) true true ""],
    timerActive := false, roundsPlayed := 0 }

/-- A valid replacement map with only two starting positions. -/
def smallMap : GameMap :=
  { demoMap with
    name := "small"
    startingPositions := [((1 : Int), (1 : Int)), ((2 : Int), (2 : Int))] }

/-- Witness for `c9_loadMap_eviction`: loading the two-slot map over the
trio evicts the highest network player only; the local player survives,
the rest are repositioned and renumbered densely. -/
theorem c9_loadMap_eviction_witness :
    (kickExcess smallMap.startingPositions.length gmTrio.players).length = 2 ∧
    (kickExcess smallMap.startingPositions.length gmTrio.players).filter
      (fun p => !p.networkClient) = gmTrio.players.filter (fun p => !p.networkClient) ∧
    (loadMap gmTrio smallMap).players.get? 1 =
      ((kickExcess smallMap.startingPositions.length gmTrio.players).get? 1).map
        (fun q => { q with id := 1,
                           position := smallMap.startingPositions.getD 1 ((0 : Int), (0 : Int)) }) := by
  have h := c9_loadMap_eviction gmTrio smallMap rfl
  refine ⟨?_, h.2.1, h.2.2.2.2.1 1⟩
  rw [h.2.2.2.1]
  decide

/-- The name-change lockout loop crashes (dereferences a null channel) as
soon as it reaches a player with no network client. -/
theorem lockoutNames_error (l : List Player) (h : ∃ p ∈ l, p.networkClient = false) :
    lockoutNames l = Except.error () := by
  induction l with
  | nil =>
    obtain ⟨p, hp, _⟩ := h
    cases hp
  | cons q rest ih =>
    by_cases hq : q.networkClient
    · obtain ⟨p, hp, hloc⟩ := h
      rcases List.mem_cons.mp hp with rfl | hp'
      · rw [hq] at hloc
        cases hloc
      · simp [lockoutNames, hq, ih ⟨p, hp', hloc⟩]
    · simp [lockoutNames, hq]

/-- Membership of a local player survives the eviction loop. -/
theorem kickExcess_keeps_local (cap : Nat) (l : List Player) (p : Player)
    (hp : p ∈ l) (hloc : p.networkClient = false) : p ∈ kickExcess cap l := by
  have hmem : p ∈ (kickExcess cap l).filter fun q => !q.networkClient := by
    rw [kickExcess_filter_local]
    exact List.mem_filter.mpr ⟨hp, by simp [hloc]⟩
  exact (List.mem_filter.mp hmem).1

/-- A list whose channel-attachment column matches one containing a local
player also contains a local player. -/
theorem hasLocal_of_map_eq (l₁ l₂ : List Player)
    (h : l₁.map (fun p => p.networkClient) = l₂.map fun p => p.networkClient)
    (hp : ∃ p ∈ l₂, p.networkClient = false) : ∃ p ∈ l₁, p.networkClient = false := by
  obtain ⟨p, hpmem, hloc⟩ := hp
  have : false ∈ l₁.map fun p => p.networkClient := by
    rw [h]
    exact List.mem_map.mpr ⟨p, hpmem, hloc⟩
  obtain ⟨q, hq, hq'⟩ := List.mem_map.mp this
  exact ⟨q, hq, hq'⟩

/-- C10: `startRound` on any non-empty roster containing a
locally-controlled player (no network channel) dereferences that player's
absent channel in the name-change lockout loop
(`m_players[i]->networkClient()->disconnect(...)` has no null guard) and
crashes instead of completing. -/
theorem c10_startRound_null_deref (gm : GameManager)
    (h : ∃ p ∈ gm.players, p.networkClient = false) :
    startRound gm = Except.error () := by
  obtain ⟨p, hp, hloc⟩ := h
  have hne : gm.players.isEmpty = false := by
    cases hl : gm.players with
    | nil => rw [hl] at hp; cases hp
    | cons a as => rfl
  have h1 : ∃ q ∈ resetLoop gm.map 0 gm.players, q.networkClient = false :=
    hasLocal_of_map_eq _ _ (resetLoop_networkClient gm.map 0 gm.players) ⟨p, hp, hloc⟩
  have h2 : ∃ q ∈ (loadMap { gm with players := resetLoop gm.map 0 gm.players }
      { gm.map with bombs := [] }).players, q.networkClient = false := by
    by_cases hv : gm.map.isValid = true
    · simp only [loadMap]
      rw [if_pos hv]
      obtain ⟨q, hq, hq'⟩ := h1
      refine hasLocal_of_map_eq _ _
        (reindexPlayers_networkClient { gm.map with bombs := [] } 0 _) ?_
      exact ⟨q, kickExcess_keeps_local _ _ q hq hq', hq'⟩
    · simp only [loadMap]
      rw [if_neg hv]
      exact h1
  simp only [startRound, hne, Bool.false_eq_true, if_false]
  rw [lockoutNames_error _ h2]

/-- Witness for `c10_startRound_null_deref`: a roster holding one network
player and one local player crashes `startRound`. -/
theorem c10_startRound_null_deref_witness :
    startRound { map := demoMap,
                 players := [demoPlayer 0 (1, 1) true true "", demoPlayer 1 (3, 3) true false ""],
                 timerActive := false, roundsPlayed := 0 } = Except.error () :=
  c10_startRound_null_deref _ ⟨demoPlayer 1 (3, 3) true false "", by decide, rfl⟩

/-! ### The tick's shuffle: `fisherYates` (claim C6) -/

/-- Writing back the element already at a position is a no-op. -/
theorem listSet_self (l : List α) (i : Nat) (h : i < l.length) :
    l.set i (l.get ⟨i, h⟩) = l := by
  induction l generalizing i with
  | nil => simp at h
  | cons a as ih =>
    cases i with
    | zero => rfl
    | succ i =>
      have h2 : i < as.length := by simpa using h
      show a :: as.set i (as.get ⟨i, h2⟩) = a :: as
      rw [ih i h2]

/-- One `qSwap` of two list positions is a permutation. -/
theorem listSwap_perm [DecidableEq α] (l : List α) (i j : Nat) :
    (listSwap l i j).Perm l := by
  unfold listSwap
  cases hi : l.get? i with
  | none => exact List.Perm.refl _
  | some x =>
    cases hj : l.get? j with
    | none => exact List.Perm.refl _
    | some y =>
      obtain ⟨hi2, hx⟩ := List.get?_eq_some.mp hi
      obtain ⟨hj2, hy⟩ := List.get?_eq_some.mp hj
      rw [List.get_eq_getElem] at hx hy
      show ((l.set i y).set j x).Perm l
      by_cases hij : i = j
      · subst hij
        have hxy : x = y := by rw [← hx, ← hy]
        subst hxy
        have hget : l.get ⟨i, hi2⟩ = x := by
          rw [List.get_eq_getElem]
          exact hx
        rw [List.set_set, ← hget, listSet_self l i hi2]
      · rw [List.perm_iff_count]
        intro b
        have hjlen : j < (l.set i y).length := by
          rw [List.length_set]
          exact hj2
        rw [List.count_set x b (l.set i y) j hjlen, List.count_set y b l i hi2]
        rw [List.getElem_set, if_neg hij, hy, hx]
        have hxmem : x ∈ l := by
          rw [← hx]
          exact List.getElem_mem hi2
        simp only [beq_iff_eq]
        by_cases hxb : x = b <;> by_cases hyb : y = b
        · rw [if_pos hxb, if_pos hyb]
          have hc : 0 < l.count b := List.count_pos_iff.mpr (by rw [← hxb]; exact hxmem)
          omega
        · rw [if_pos hxb, if_neg hyb]
          have hc : 0 < l.count b := List.count_pos_iff.mpr (by rw [← hxb]; exact hxmem)
          omega
        · rw [if_neg hxb, if_pos hyb]
          omega
        · rw [if_neg hxb, if_neg hyb]
          omega

/-- The tick's shuffle loop produces a permutation of its input, for every
sequence of `qrand()` draws. -/
theorem fisherYates_perm [DecidableEq α] (rand : Nat → Nat) (l : List α) :
    (fisherYates rand l).Perm l := by
  unfold fisherYates
  have hfold : ∀ (idxs : List Nat) (acc : List α),
      (idxs.foldl (fun acc index => listSwap acc index (rand index % (index + 1))) acc).Perm
        acc := by
    intro idxs
    induction idxs with
    | nil => intro acc; exact List.Perm.refl _
    | cons i is ih =>
      intro acc
      exact (ih (listSwap acc i (rand i % (i + 1)))).trans (listSwap_perm acc i _)
  exact hfold _ l

/-- Reading a list back by index yields the list. -/
theorem map_getD_range (l : List Player) :
    (List.range l.length).map (fun i => l.getD i default) = l := by
  induction l with
  | nil => rfl
  | cons p rest ih =>
    rw [List.length_cons, List.range_succ_eq_map, List.map_cons, List.map_map]
    have hcomp : ((fun i => (p :: rest).getD i default) ∘ Nat.succ) =
        fun i => rest.getD i default := by
      funext i
      rfl
    rw [hcomp, ih]
    rfl

/-- A three-player roster whose third player is dead, mid-round. -/
def gmMixedAlive : GameManager :=
  { map := demoMap,
    players := [demoPlayer 0 (1, 1) true true "", demoPlayer 1 (3, 3) true true "",
                demoPlayer 2 (5, 5) false true ""],
    timerActive := true, roundsPlayed := 0 }

/-- C6 (counterexample): with a dead player in the roster, the tick's
intent-resolution order is not a permutation of the alive-player set —
the shuffled snapshot is the whole roster, dead players included (and
dead players' commands are processed like everyone else's). -/
theorem c6_counterexample :
    ¬ (resolutionOrder gmMixedAlive (fun _ => 0)).Perm
        (gmMixedAlive.players.filter fun p => p.alive) := by
  decide

/-- C6 (amended): for every tick and every sequence of random draws, the
intent-resolution order — the roster snapshot shuffled by the
Fisher–Yates loop over indices count-1 down to 1, each swapped with draw
mod (index+1), an index in [0, index] — is a permutation of the entire
roster snapshot (alive and dead players alike), so no player id has a
structural advantage in conflict resolution; it is a permutation of the
alive-player set only when every roster player is alive. -/
theorem c6_resolution_order_perm (gm : GameManager) (rand : Nat → Nat) :
    (resolutionOrder gm rand).Perm gm.players := by
  unfold resolutionOrder
  have h1 : (fisherYates rand (List.range gm.players.length)).Perm
      (List.range gm.players.length) := fisherYates_perm rand _
  have h2 := h1.map fun i => gm.players.getD i default
  rwa [map_getD_range] at h2

/-! ### Movement resolution inside the tick (claim C5) -/

/-- Unfolding `processIndex` once the processed player is known. -/
theorem processIndex_eq_of_get? (st : List Player × GameMap) (i : Nat) (p : Player)
    (hp : st.1.get? i = some p) :
    processIndex st i =
      (if p.command = "" then st
       else if p.command = "BOMB" then
         (st.1, { st.2 with bombs := st.2.bombs ++ [p.position] })
       else
         match targetOf p.command p.position with
         | none => st
         | some target =>
           if (st.2.isValidPosition target
               && !(st.1.any fun q => q.alive && decide (q.position = target))
               && !(st.2.bombs.any fun b => decide (b = target))) = true
           then (st.1.set i { p with position := target }, st.2) else st) := by
  unfold processIndex
  rw [hp]

/-- The walkability test of the tick, as a proposition: the target is
walkable on the map, no currently-alive snapshot player stands there, and
no bomb stands there. -/
theorem canWalk_iff (st : List Player × GameMap) (target : Int × Int) :
    ((st.2.isValidPosition target
      && !(st.1.any fun q => q.alive && decide (q.position = target))
      && !(st.2.bombs.any fun b => decide (b = target))) = true) ↔
    (st.2.isValidPosition target = true ∧
     (¬ ∃ q ∈ st.1, q.alive = true ∧ q.position = target) ∧
     target ∉ st.2.bombs) := by
  simp [List.any_eq_true, not_exists, and_assoc]
  intro _ _
  constructor
  · intro h hmem
    exact (h target.1 target.2 (by simpa using hmem)) (by simp)
  · intro h a b hab hq
    exact h (hq ▸ hab)

/-- C5: a player processed in the tick with a directional pending command
targets the one-cell offset (`UP` = y-1, `DOWN` = y+1, `LEFT` = x-1,
`RIGHT` = x+1); the move commits exactly when the target is walkable, no
currently-alive snapshot player occupies it (moves committed earlier in
the same tick included, since the occupancy check reads the live
snapshot), and no active bomb occupies it — otherwise the position is
unchanged; and the movement phase processes the order one player at a
time, so each step sees the earlier steps' commits. -/
theorem c5_directional_move (st : List Player × GameMap) (i : Nat) (p : Player)
    (hp : st.1.get? i = some p) :
    (∀ target : Int × Int,
      ((p.command = "UP" ∧ target = (p.position.1, p.position.2 - 1)) ∨
       (p.command = "DOWN" ∧ target = (p.position.1, p.position.2 + 1)) ∨
       (p.command = "LEFT" ∧ target = (p.position.1 - 1, p.position.2)) ∨
       (p.command = "RIGHT" ∧ target = (p.position.1 + 1, p.position.2))) →
      processIndex st i =
        (if st.2.isValidPosition target = true ∧
            (¬ ∃ q ∈ st.1, q.alive = true ∧ q.position = target) ∧
            target ∉ st.2.bombs
         then (st.1.set i { p with position := target }, st.2) else st)) ∧
    (∀ order : List Nat,
      movementPhase st (order ++ [i]) = processIndex (movementPhase st order) i) := by
  constructor
  · intro target htgt
    have hcases : targetOf p.command p.position = some target ∧
        p.command ≠ "" ∧ p.command ≠ "BOMB" := by
      rcases htgt with ⟨hc, rfl⟩ | ⟨hc, rfl⟩ | ⟨hc, rfl⟩ | ⟨hc, rfl⟩ <;>
        rw [hc] <;> exact ⟨rfl, by decide, by decide⟩
    obtain ⟨htgtOf, hne1, hne2⟩ := hcases
    rw [processIndex_eq_of_get? st i p hp, if_neg hne1, if_neg hne2]
    simp only [htgtOf]
    by_cases hcond : st.2.isValidPosition target = true ∧
        (¬ ∃ q ∈ st.1, q.alive = true ∧ q.position = target) ∧
        target ∉ st.2.bombs
    · rw [if_pos ((canWalk_iff st target).mpr hcond), if_pos hcond]
    · rw [if_neg (fun hb => hcond ((canWalk_iff st target).mp hb)), if_neg hcond]
  · intro order
    unfold movementPhase
    rw [List.foldl_append]
    rfl

/-- Witness for `c5_directional_move`: on the demo map, a player at (1,1)
commanding `UP` moves to (1,0) past a dead player standing there, while a
second alive player is unaffected. -/
theorem c5_directional_move_witness :
    processIndex ([demoPlayer 0 (1, 1) true true "UP", demoPlayer 1 (1, 0) false true ""],
        demoMap) 0 =
      ([demoPlayer 0 (1, 0) true true "UP", demoPlayer 1 (1, 0) false true ""], demoMap) := by
  have h := (c5_directional_move
    ([demoPlayer 0 (1, 1) true true "UP", demoPlayer 1 (1, 0) false true ""], demoMap) 0
    (demoPlayer 0 (1, 1) true true "UP") rfl).1 ((1 : Int), (0 : Int))
    (Or.inl ⟨rfl, rfl⟩)
  rw [h, if_pos]
  · rfl
  · exact ⟨by decide, by decide, by decide⟩

/-! ### Snapshot broadcast at the end of the tick (claim C4) -/

/-- Writing back the entry already at a position (via `get?`) is a
no-op. -/
theorem set_of_get? (l : List β) (i : Nat) (b : β) (h : l.get? i = some b) :
    l.set i b = l := by
  induction l generalizing i with
  | nil => cases h
  | cons a as ih =>
    cases i with
    | zero =>
      simp only [List.get?_cons_zero, Option.some.injEq] at h
      rw [List.set_cons_zero, h]
    | succ i =>
      rw [List.set_cons_succ, ih i (by simpa using h)]

/-- The per-player step changes only positions (and the map's bombs):
every column of the roster that ignores the position — ids, alive flags,
channel attachment, wins, commands — is untouched. -/
theorem processIndex_map_col (f : Player → β)
    (hf : ∀ p pos, f { p with position := pos } = f p)
    (st : List Player × GameMap) (i : Nat) :
    ((processIndex st i).1).map f = st.1.map f := by
  cases hp : st.1.get? i with
  | none =>
    unfold processIndex
    rw [hp]
  | some p =>
    rw [processIndex_eq_of_get? st i p hp]
    by_cases h1 : p.command = ""
    · rw [if_pos h1]
    · rw [if_neg h1]
      by_cases h2 : p.command = "BOMB"
      · rw [if_pos h2]
      · rw [if_neg h2]
        cases htgt : targetOf p.command p.position with
        | none => simp only [htgt]
        | some target =>
          simp only [htgt]
          by_cases hw : (st.2.isValidPosition target
              && !(st.1.any fun q => q.alive && decide (q.position = target))
              && !(st.2.bombs.any fun b => decide (b = target))) = true
          · rw [if_pos hw]
            show (st.1.set i { p with position := target }).map f = st.1.map f
            rw [List.map_set, hf]
            refine set_of_get? _ i (f p) ?_
            rw [List.get?_eq_getElem?, List.getElem?_map]
            rw [List.get?_eq_getElem?] at hp
            rw [hp]
            rfl
          · rw [if_neg hw]

/-- Position-ignoring columns survive the whole movement phase. -/
theorem movementPhase_map_col (f : Player → β)
    (hf : ∀ p pos, f { p with position := pos } = f p) (order : List Nat) :
    ∀ st : List Player × GameMap, ((movementPhase st order).1).map f = st.1.map f := by
  induction order with
  | nil => intro st; rfl
  | cons i is ih =>
    intro st
    show ((movementPhase (processIndex st i) is).1).map f = st.1.map f
    rw [ih (processIndex st i), processIndex_map_col f hf]

/-- The roster after a tick is the movement phase's output. -/
theorem gameTick_players (gm : GameManager) (rand : Nat → Nat) :
    (gameTick gm rand).gm.players =
      (movementPhase (gm.players, gm.map)
        (fisherYates rand (List.range gm.players.length))).1 := by
  simp only [gameTick]
  split_ifs <;> rfl

/-- `gameOver()` is emitted by a tick exactly when at least one snapshot
player is dead and fewer than two are alive afterwards (the source
condition `dead > 0 && players.size() - dead < 2`). -/
theorem gameTick_emitted_iff (gm : GameManager) (rand : Nat → Nat) :
    (gameTick gm rand).gameOverEmitted = true ↔
      (0 < deadCount (gameTick gm rand).gm.players ∧
       (gameTick gm rand).gm.players.length -
         deadCount (gameTick gm rand).gm.players < 2) := by
  simp only [gameTick]
  split_ifs with h
  · simpa using h
  · simpa using h

/-- On a tick that does not end the round, the snapshots are built from
the post-movement alive list. -/
theorem gameTick_snapshots (gm : GameManager) (rand : Nat → Nat)
    (h : (gameTick gm rand).gameOverEmitted = false) :
    (gameTick gm rand).snapshots =
      buildSnapshots [] ((gameTick gm rand).gm.players.filter fun p => p.alive) := by
  simp only [gameTick] at h ⊢
  split_ifs at h ⊢
  · rfl

/-- The snapshot recipients are exactly the network-attached entries of
the list walked by the broadcast loop, in order. -/
theorem buildSnapshots_map_fst (l : List Player) : ∀ acc : List Player,
    (buildSnapshots acc l).map Prod.fst = l.filter fun p => p.networkClient := by
  induction l with
  | nil => intro acc; rfl
  | cons p rest ih =>
    intro acc
    by_cases hnet : p.networkClient
    · simp [buildSnapshots, hnet, ih]
    · simp [buildSnapshots, hnet, ih]

/-- Every snapshot sent by the broadcast loop splits the walked list
around its recipient: the contents are the walked list minus the
recipient's own slot. -/
theorem buildSnapshots_mem (l : List Player) : ∀ (acc : List Player)
    (s : Player × List Player), s ∈ buildSnapshots acc l →
    ∃ pre post, acc ++ l = pre ++ s.1 :: post ∧ s.2 = pre ++ post := by
  induction l with
  | nil =>
    intro acc s hs
    cases hs
  | cons p rest ih =>
    intro acc s hs
    by_cases hnet : p.networkClient
    · rw [buildSnapshots, if_pos hnet] at hs
      rcases List.mem_cons.mp hs with rfl | hs'
      · exact ⟨acc, rest, rfl, rfl⟩
      · obtain ⟨pre, post, h1, h2⟩ := ih (acc ++ [p]) s hs'
        refine ⟨pre, post, ?_, h2⟩
        rw [← h1]
        simp
    · rw [buildSnapshots, if_neg hnet] at hs
      obtain ⟨pre, post, h1, h2⟩ := ih (acc ++ [p]) s hs
      refine ⟨pre, post, ?_, h2⟩
      rw [← h1]
      simp

/-- C4: on every tick that does not end the round, snapshots go to exactly
the post-tick alive, network-attached players (in roster order, one
each), and each recipient's snapshot is the alive list minus the
recipient itself: the recipient never appears in its own contents, every
entry is an alive current-roster player other than the recipient, and
every other alive player appears; eliminated players and players without
an attached channel receive nothing. -/
theorem c4_snapshots (gm : GameManager) (rand : Nat → Nat)
    (hids : (gm.players.map fun p => p.id).Nodup)
    (hnoend : (gameTick gm rand).gameOverEmitted = false) :
    ((gameTick gm rand).snapshots.map Prod.fst =
      ((gameTick gm rand).gm.players.filter fun p => p.alive).filter
        fun p => p.networkClient) ∧
    ∀ s ∈ (gameTick gm rand).snapshots,
      s.1 ∉ s.2 ∧
      s.1.alive = true ∧ s.1.networkClient = true ∧ s.1 ∈ (gameTick gm rand).gm.players ∧
      (∀ q ∈ s.2, q.alive = true ∧ q ∈ (gameTick gm rand).gm.players ∧ q ≠ s.1) ∧
      (∀ q ∈ (gameTick gm rand).gm.players, q.alive = true → q ≠ s.1 → q ∈ s.2) := by
  have hsnap := gameTick_snapshots gm rand hnoend
  have halive : ((gameTick gm rand).gm.players.filter fun p => p.alive).Sublist
      (gameTick gm rand).gm.players := List.filter_sublist _
  have hpostids : ((gameTick gm rand).gm.players.map fun p => p.id).Nodup := by
    rw [gameTick_players, movementPhase_map_col (fun p => p.id) (fun p pos => rfl)]
    exact hids
  have hfilterids :
      (((gameTick gm rand).gm.players.filter fun p => p.alive).map fun p => p.id).Nodup :=
    List.Nodup.sublist (halive.map fun p => p.id) hpostids
  constructor
  · rw [hsnap, buildSnapshots_map_fst]
  · intro s hs
    have hs' := hs
    rw [hsnap] at hs'
    obtain ⟨pre, post, hdecomp, hcont⟩ := buildSnapshots_mem _ [] s hs'
    rw [List.nil_append] at hdecomp
    have hnet : s.1.networkClient = true := by
      have : s.1 ∈ (gameTick gm rand).snapshots.map Prod.fst :=
        List.mem_map.mpr ⟨s, hs, rfl⟩
      rw [hsnap, buildSnapshots_map_fst] at this
      exact (List.mem_filter.mp this).2
    have hmemalive : s.1 ∈ (gameTick gm rand).gm.players.filter fun p => p.alive := by
      rw [hdecomp]
      exact List.mem_append.mpr (Or.inr (List.mem_cons_self ..))
    have hself_alive : s.1.alive = true := by
      simpa using (List.mem_filter.mp hmemalive).2
    have hself_mem : s.1 ∈ (gameTick gm rand).gm.players :=
      (List.mem_filter.mp hmemalive).1
    have hnotmem : s.1 ∉ s.2 := by
      intro hmem
      have hperm : ((pre ++ s.1 :: post).map fun p => p.id).Perm
          ((s.1 :: (pre ++ post)).map fun p => p.id) :=
        (@List.perm_middle Player s.1 pre post).map fun p => p.id
      have hnd : ((s.1 :: (pre ++ post)).map fun p => p.id).Nodup := by
        refine hperm.nodup ?_
        rw [← hdecomp]
        exact hfilterids
      rw [List.map_cons, List.nodup_cons] at hnd
      exact hnd.1 (List.mem_map.mpr ⟨s.1, hcont ▸ hmem, rfl⟩)
    refine ⟨hnotmem, hself_alive, hnet, hself_mem, ?_, ?_⟩
    · intro q hq
      have hq' : q ∈ (gameTick gm rand).gm.players.filter fun p => p.alive := by
        rw [hdecomp]
        rcases List.mem_append.mp (hcont ▸ hq) with h | h
        · exact List.mem_append.mpr (Or.inl h)
        · exact List.mem_append.mpr (Or.inr (List.mem_cons_of_mem _ h))
      refine ⟨by simpa using (List.mem_filter.mp hq').2, (List.mem_filter.mp hq').1, ?_⟩
      intro hqeq
      exact hnotmem (hqeq ▸ hq)
    · intro q hqmem hqalive hqne
      have hq' : q ∈ pre ++ s.1 :: post := by
        rw [← hdecomp]
        exact List.mem_filter.mpr ⟨hqmem, by simpa using hqalive⟩
      rw [hcont]
      rcases List.mem_append.mp hq' with h | h
      · exact List.mem_append.mpr (Or.inl h)
      · rcases List.mem_cons.mp h with h1 | h1
        · exact absurd h1 hqne
        · exact List.mem_append.mpr (Or.inr h1)

/-- Witness for `c4_snapshots`: a tick of the mixed-roster state (two
alive network players, one dead) sends snapshots to exactly the alive
pair, and the first snapshot excludes its own recipient. -/
theorem c4_snapshots_witness :
    ((gameTick gmMixedAlive (fun _ => 0)).snapshots.map Prod.fst =
      ((gameTick gmMixedAlive (fun _ => 0)).gm.players.filter fun p => p.alive).filter
        fun p => p.networkClient) ∧
    ((gameTick gmMixedAlive (fun _ => 0)).snapshots.getD 0 default).1 ∉
      ((gameTick gmMixedAlive (fun _ => 0)).snapshots.getD 0 default).2 := by
  have h := c4_snapshots gmMixedAlive (fun _ => 0) (by decide) (by decide)
  exact ⟨h.1, (h.2 _ (by decide)).1⟩

/-! ### Round-over detection across a round (claim C1) -/

/-- Alive and dead players together make up the whole roster. -/
theorem aliveCount_add_deadCount (l : List Player) :
    aliveCount l + deadCount l = l.length := by
  unfold aliveCount deadCount
  induction l with
  | nil => rfl
  | cons p rest ih =>
    by_cases hp : p.alive <;> simp [List.countP_cons, hp] <;> omega

/-- The dead count only depends on the alive column. -/
theorem deadCount_map (l : List Player) :
    deadCount l = (l.map fun p => p.alive).countP fun b => !b := by
  rw [List.countP_map]
  rfl

/-- An explosion event never changes the roster size. -/
theorem explosionAt_length (gm : GameManager) (pos : Int × Int) :
    (explosionAt gm pos).players.length = gm.players.length := by
  simp [explosionAt]

/-- An explosion event only kills: the dead count never decreases. -/
theorem deadCount_le_explosionAt (gm : GameManager) (pos : Int × Int) :
    deadCount gm.players ≤ deadCount (explosionAt gm pos).players := by
  unfold explosionAt deadCount
  dsimp only
  rw [List.countP_map]
  apply List.countP_mono_left
  intro x _ h
  by_cases hxp : x.position = pos
  · simp [Function.comp, hxp]
  · simpa [Function.comp, hxp] using h

/-- Roster size across a window of explosion events. -/
theorem foldl_explosionAt_length (ws : List (Int × Int)) : ∀ gm : GameManager,
    (ws.foldl explosionAt gm).players.length = gm.players.length := by
  induction ws with
  | nil => intro gm; rfl
  | cons w rest ih =>
    intro gm
    show (rest.foldl explosionAt (explosionAt gm w)).players.length = _
    rw [ih (explosionAt gm w), explosionAt_length]

/-- Dead count across a window of explosion events: monotone. -/
theorem foldl_explosionAt_dead (ws : List (Int × Int)) : ∀ gm : GameManager,
    deadCount gm.players ≤ deadCount (ws.foldl explosionAt gm).players := by
  induction ws with
  | nil => intro gm; exact Nat.le_refl _
  | cons w rest ih =>
    intro gm
    exact Nat.le_trans (deadCount_le_explosionAt gm w) (ih (explosionAt gm w))

/-- A tick never changes any alive flag (only explosions kill). -/
theorem gameTick_map_alive (gm : GameManager) (rand : Nat → Nat) :
    ((gameTick gm rand).gm.players.map fun p => p.alive) =
      gm.players.map fun p => p.alive := by
  rw [gameTick_players]
  exact movementPhase_map_col (fun p => p.alive) (fun p pos => rfl) _ _

/-- A tick preserves the dead count. -/
theorem gameTick_deadCount (gm : GameManager) (rand : Nat → Nat) :
    deadCount (gameTick gm rand).gm.players = deadCount gm.players := by
  rw [deadCount_map, gameTick_map_alive, ← deadCount_map]

/-- A tick preserves the roster size. -/
theorem gameTick_length (gm : GameManager) (rand : Nat → Nat) :
    (gameTick gm rand).gm.players.length = gm.players.length := by
  have h := congrArg List.length (gameTick_map_alive gm rand)
  simpa using h

/-- Round-over characterisation along a round run, under the invariant
that the entering roster does not already satisfy the emit condition
(true at round start, re-established after every non-emitting tick
because ticking stops at the first emission). -/
theorem c1_aux (sched : List (List (Int × Int) × (Nat → Nat))) : ∀ gm : GameManager,
    ¬ (0 < deadCount gm.players ∧ gm.players.length - deadCount gm.players < 2) →
    ∀ r ∈ roundRun gm sched,
      (r.emitted = true ↔
        (deadCount r.preRoster < deadCount r.postRoster ∧
         aliveCount r.postRoster < 2)) := by
  induction sched with
  | nil =>
    intro gm _ r hr
    simp [roundRun] at hr
  | cons w rest ih =>
    intro gm hinv r hr
    simp only [roundRun] at hr
    have hlenE : (w.1.foldl explosionAt gm).players.length = gm.players.length :=
      foldl_explosionAt_length w.1 gm
    have hdmono : deadCount gm.players ≤ deadCount (w.1.foldl explosionAt gm).players :=
      foldl_explosionAt_dead w.1 gm
    have hdtick : deadCount (gameTick (w.1.foldl explosionAt gm) w.2).gm.players =
        deadCount (w.1.foldl explosionAt gm).players :=
      gameTick_deadCount _ w.2
    have hltick : (gameTick (w.1.foldl explosionAt gm) w.2).gm.players.length =
        (w.1.foldl explosionAt gm).players.length :=
      gameTick_length _ w.2
    have hemit := gameTick_emitted_iff (w.1.foldl explosionAt gm) w.2
    have hacd := aliveCount_add_deadCount (gameTick (w.1.foldl explosionAt gm) w.2).gm.players
    rcases List.mem_cons.mp hr with rfl | hr'
    · dsimp only
      constructor
      · intro he
        obtain ⟨hd0, hlt⟩ := hemit.mp he
        constructor
        · by_contra hnd
          push_neg at hnd
          exact hinv ⟨by omega, by omega⟩
        · omega
      · rintro ⟨hdlt, hal⟩
        apply hemit.mpr
        constructor
        · omega
        · omega
    · by_cases he : (gameTick (w.1.foldl explosionAt gm) w.2).gameOverEmitted = true
      · rw [if_pos he] at hr'
        cases hr'
      · rw [if_neg he] at hr'
        refine ih (gameTick (w.1.foldl explosionAt gm) w.2).gm ?_ r hr'
        intro hcon
        exact he (hemit.mpr (by constructor <;> omega))

/-- C1: in a round run — starting from a roster that is entirely alive (as
`startRound` leaves it), with each tick preceded by the explosion events
of its window and ticking stopping at the first round-over — the
round-over signal is emitted on a tick if and only if at least one death
occurred during that tick's window AND fewer than 2 players remain alive
after the tick's resolution. In particular, a tick with zero deaths never
emits round-over, even if one (or zero) alive players entered it. -/
theorem c1_round_over_iff (gm : GameManager)
    (hstart : ∀ p ∈ gm.players, p.alive = true)
    (sched : List (List (Int × Int) × (Nat → Nat))) :
    ∀ r ∈ roundRun gm sched,
      (r.emitted = true ↔
        (deadCount r.preRoster < deadCount r.postRoster ∧
         aliveCount r.postRoster < 2)) := by
  apply c1_aux
  have hz : deadCount gm.players = 0 :=
    List.countP_eq_zero.mpr fun p hp => by simp [hstart p hp]
  rintro ⟨h1, _⟩
  omega

/-- A fresh two-player round and a schedule whose single window blows up
the second player's cell. -/
def gmRoundW : GameManager :=
  { map := demoMap,
    players := [demoPlayer 0 (1, 1) true true "", demoPlayer 1 (3, 3) true true ""],
    timerActive := true, roundsPlayed := 0 }

/-- One tick window: an explosion at (3,3), then a tick with all draws
0. -/
def schedW : List (List (Int × Int) × (Nat → Nat)) := [([((3 : Int), (3 : Int))], fun _ => 0)]

/-- The first executed tick record of that round. -/
def recW : TickRecord := (roundRun gmRoundW schedW).getD 0 default

/-- Witness for `c1_round_over_iff`: in the concrete round, the first tick
kills one of two players and emits round-over, matching the
death-and-fewer-than-two characterisation. -/
theorem c1_round_over_iff_witness :
    recW.emitted = true ↔
      (deadCount recW.preRoster < deadCount recW.postRoster ∧
       aliveCount recW.postRoster < 2) :=
  c1_round_over_iff gmRoundW (by decide) schedW recW (by decide)

end Bomber
